import Mathlib

/-!
Verification development for the dotted-path resolver (`getObjectValue`),
the node-path helper (`getNodePath`) of
`ng2-components/ng2-alfresco-documentlist/src/components/document-list.ts`,
the deployed-application lookup (`getDeployedApplicationsByStatus`) of
`lib/process-services-cloud/src/lib/app/services/apps-process-cloud.service.ts`,
and the filter-form builder described in the specification.

Strings are embedded as `List Char`. JavaScript values are embedded by the
inductive type `Value`; JavaScript `undefined` is represented by `Option.none`
(absence), while `null` is a proper value `Value.vnull`. A computation that
can throw a `TypeError` is embedded in `Except Unit`.
-/

set_option autoImplicit false

namespace Adf

/-- A JavaScript value: `null`, a boolean, a number, a string, or an object
(a finite association of string keys to values, first binding wins). -/
inductive Value where
  | vnull : Value
  | vbool : Bool → Value
  | vnum : Int → Value
  | vstr : List Char → Value
  | vobj : List (List Char × Value) → Value

/-- First-match association lookup, the embedding of reading a named own
property of a JavaScript object literal (keys in an object are distinct, so
first match agrees with the object semantics). -/
def assocLookup {α : Type} : List (List Char × α) → List Char → Option α
  | [], _ => none
  | (k, v) :: rest, key => if k = key then some v else assocLookup rest key

/-- `typeof v === 'object'` of JavaScript: true on objects and — notoriously —
on `null`, false on booleans, numbers and strings. -/
def typeofObject : Value → Bool
  | .vnull => true
  | .vobj _ => true
  | _ => false

/-- Embedding of the JavaScript property read `target[key]`:
reading a property of `null` throws a `TypeError` (`.error ()`); reading a
missing key of an object yields `undefined` (`none`); reading a property of a
boolean, number or string primitive yields `undefined` in this model (the
claims never read wrapper-object properties such as `length` or numeric
string indices, so those are modelled as absent). -/
def jsGetProp (v : Value) (k : List Char) : Except Unit (Option Value) :=
  match v with
  | .vnull => .error ()
  | .vobj fields => .ok (assocLookup fields k)
  | _ => .ok none

/-- Embedding of JavaScript `key.split('.')` on a single-character separator:
the empty string yields `['']`, and every `'.'` starts a new piece. -/
def splitDot : List Char → List (List Char)
  | [] => [[]]
  | c :: cs =>
    if c = '.' then [] :: splitDot cs
    else
      match splitDot cs with
      | s :: rest => (c :: s) :: rest
      | [] => [[c]]

/-- Joining segments with `'.'`, the left inverse of `splitDot` on dot-free
segments; used to state properties about dotted paths. -/
def joinDot : List (List Char) → List Char
  | [] => []
  | [s] => s
  | s :: ss => s ++ '.' :: joinDot ss

/-- Embedding of the do-while loop of `getObjectValue`
(document-list.ts lines 255-273). State: `target` is the current value,
`key` the accumulated compound-key prefix, and the list the remaining
segments (`keys`). Each iteration shifts one segment, reads
`target[key ++ segment]`, and either descends (resetting `key`), returns,
or retries with the segment glued to the prefix by a `'.'`. -/
def resolveLoop : Value → List Char → List (List Char) → Except Unit (Option Value)
  | target, _, [] => .ok (some target)
  | target, key, k :: keys =>
    match jsGetProp target (key ++ k) with
    | .error _ => .error ()
    | .ok (some value) =>
      if typeofObject value || keys.isEmpty then
        match keys with
        | [] => .ok (some value)
        | _ :: _ => resolveLoop value [] keys
      else
        resolveLoop target (key ++ k ++ ['.']) keys
    | .ok none =>
      match keys with
      | [] => .ok none
      | _ :: _ => resolveLoop target (key ++ k ++ ['.']) keys

/-- Embedding of `DocumentList.getObjectValue(target, key)`: split the key on
`'.'` and run the loop with an empty accumulated prefix. Result: `.error ()`
when the JavaScript code would throw, `.ok none` when it returns `undefined`,
`.ok (some v)` when it returns the value `v`. -/
def getObjectValue (target : Value) (key : List Char) : Except Unit (Option Value) :=
  resolveLoop target [] (splitDot key)

/-- Straightforward step-by-step descent along a segment list: the value
stored at a path when every intermediate value is an object and every segment
is present. Used as the specification side of claims about valid paths. -/
def pathLookup : Value → List (List Char) → Option Value
  | v, [] => some v
  | .vobj fields, s :: ss =>
    match assocLookup fields s with
    | some u => pathLookup u ss
    | none => none
  | _, _ :: _ => none

mutual

/-- `true` when the value contains no `null` anywhere (no `null` leaf and no
`null` nested inside any object field). -/
def nullFree : Value → Bool
  | .vnull => false
  | .vobj fields => nullFreeFields fields
  | _ => true

/-- `nullFree` on every value of a field list. -/
def nullFreeFields : List (List Char × Value) → Bool
  | [] => true
  | (_, v) :: rest => nullFree v && nullFreeFields rest

end

/-! ## `getNodePath` (document-list.ts lines 240-246) -/

/-- The `path` object of a node entry, carrying the path display name. -/
structure NodePathInfo where
  name : List Char

/-- The `entry` object of a node: its path information and its name. -/
structure NodeEntryData where
  path : NodePathInfo
  name : List Char

/-- A node entity as read by `getNodePath`: a wrapper holding `entry`. -/
structure MinimalNodeEntity where
  entry : NodeEntryData

/-- Embedding of JavaScript `s.replace(pat, repl)` with a string pattern:
replaces the first occurrence of `pat` only, returns `s` unchanged when `pat`
does not occur (`pat` is nonempty in the source use). -/
def replaceFirst (pat repl : List Char) : List Char → List Char
  | [] => []
  | c :: cs =>
    if pat.isPrefixOf (c :: cs) then repl ++ (c :: cs).drop pat.length
    else c :: replaceFirst pat repl cs

/-- The literal `'/Company Home'` of the source. -/
def companyHome : List Char :=
  ['/', 'C', 'o', 'm', 'p', 'a', 'n', 'y', ' ', 'H', 'o', 'm', 'e']

/-- Embedding of `DocumentList.getNodePath(node)`. The source's non-null
branch reads the identifier `item`, which is not bound in the function's
scope (its declared parameter is `node`); the free identifier is made an
explicit ambient parameter `item` here. The null branch returns `null`
(`none`). -/
def getNodePath (item : MinimalNodeEntity) (node : Option MinimalNodeEntity) :
    Option (List Char) :=
  match node with
  | some _ =>
    some (replaceFirst companyHome [] item.entry.path.name ++ '/' :: item.entry.name)
  | none => none

/-! ## `getDeployedApplicationsByStatus` (apps-process-cloud.service.ts) -/

/-- A raw application record as returned by the deployment-service API:
the fields the service reads (`status`) and reproduces (`id`, `status`). -/
structure AppRecord where
  id : List Char
  status : List Char
deriving DecidableEq

/-- The `ApplicationInstanceModel` wrapper constructed from an API record. -/
structure ApplicationInstanceModel where
  id : List Char
  status : List Char
deriving DecidableEq

/-- `new ApplicationInstanceModel(app)`: copies the record's fields. -/
def mkApplicationInstanceModel (a : AppRecord) : ApplicationInstanceModel :=
  { id := a.id, status := a.status }

/-- Embedding of the success path of
`AppsProcessCloudService.getDeployedApplicationsByStatus(status)`: given the
sequence `apps` the API returned, keep exactly the records whose `status`
field equals the given status and wrap each as `ApplicationInstanceModel`,
in the API's order (`apps.filter(...).map(...)` of the source). -/
def getDeployedApplicationsByStatus (status : List Char) (apps : List AppRecord) :
    List ApplicationInstanceModel :=
  (apps.filter (fun app => app.status = status)).map mkApplicationInstanceModel

/-! ## FilterFormBuilder (spec sections 4.2, 8)

The component implementing `build` (the `EditProcessFilterCloudComponent`
form builder) is not among the source files; only its test suite is. The
definitions below are therefore modelled from the specification. -/

/-- Modelled from the spec: a `PropertyDescriptor` template held by the
catalog — label, default value, and whether the property declares a
dependent lookup for its domain. -/
structure PropertyTemplate where
  label : List Char
  defaultValue : Value
  dependent : Bool

/-- Modelled from the spec: a finalized `PropertyDescriptor` — key, label,
default value, and domain (the empty list standing for empty/unrestricted). -/
structure PropertyDescriptor where
  key : List Char
  label : List Char
  defaultValue : Value
  domain : List Value

/-- `'state'`. -/
def kState : List Char := ['s', 't', 'a', 't', 'e']

/-- `'sort'`. -/
def kSort : List Char := ['s', 'o', 'r', 't']

/-- `'order'`. -/
def kOrder : List Char := ['o', 'r', 'd', 'e', 'r']

/-- `'RUNNING'`. -/
def vRunning : List Char := ['R', 'U', 'N', 'N', 'I', 'N', 'G']

/-- `'id'`. -/
def vId : List Char := ['i', 'd']

/-- `'ASC'`. -/
def vAsc : List Char := ['A', 'S', 'C']

/-- Modelled from the spec: the built-in default property set substituted
when the requested list is empty — exactly the 3 canonical keys `state`,
`sort`, `order` with the platform's baseline defaults `'RUNNING'`, `'id'`,
`'ASC'`, carried with their own templates so the produced form is never
empty, as the spec guarantees. -/
def defaultEntries : List (List Char × PropertyTemplate) :=
  [(kState, { label := kState, defaultValue := .vstr vRunning, dependent := false }),
   (kSort, { label := kSort, defaultValue := .vstr vId, dependent := false }),
   (kOrder, { label := kOrder, defaultValue := .vstr vAsc, dependent := false })]

/-- Modelled from the spec: resolve a key's current value via the
PathResolver against the record; an unresolvable path (absent, or a path the
resolver cannot process) falls back to the template's default value. -/
def resolveOrDefault (record : Value) (key : List Char) (dflt : Value) : Value :=
  match getObjectValue record key with
  | .ok (some v) => v
  | _ => dflt

/-- Modelled from the spec: finalize one property — build its descriptor
(invoking the dependent lookup for the domain when the template declares
one, a failed lookup degrading to the empty domain) and its form-state entry
(the resolved-or-default value). -/
def buildEntry (record : Value) (lookup : List Char → Except Unit (List Value))
    (k : List Char) (tpl : PropertyTemplate) :
    PropertyDescriptor × (List Char × Value) :=
  ({ key := k, label := tpl.label, defaultValue := tpl.defaultValue,
     domain :=
       if tpl.dependent then
         match lookup k with
         | .ok vs => vs
         | .error _ => []
       else [] },
   (k, resolveOrDefault record k tpl.defaultValue))

/-- Modelled from the spec: finalize an effective list of (key, template)
entries into the ordered descriptor list and the FormState. -/
def buildFromEntries (record : Value)
    (entries : List (List Char × PropertyTemplate))
    (lookup : List Char → Except Unit (List Value)) :
    List PropertyDescriptor × List (List Char × Value) :=
  ((entries.map (fun e => buildEntry record lookup e.1 e.2)).map Prod.fst,
   (entries.map (fun e => buildEntry record lookup e.1 e.2)).map Prod.snd)

/-- Modelled from the spec: `build(record, requested, catalog)` with a
dependent-lookup source `lookup`. An empty requested list substitutes the
built-in default set; otherwise each requested key is looked up in the
catalog in order, unknown keys skipped. Returns the ordered descriptor list
and the FormState; no failure is fatal (the function is total, transport
errors never propagate). -/
def build (record : Value) (requested : List (List Char))
    (catalog : List (List Char × PropertyTemplate))
    (lookup : List Char → Except Unit (List Value)) :
    List PropertyDescriptor × List (List Char × Value) :=
  if requested = [] then buildFromEntries record defaultEntries lookup
  else
    buildFromEntries record
      (requested.filterMap (fun k => (assocLookup catalog k).map (fun t => (k, t))))
      lookup

end Adf

namespace Adf

/-! ## Lemmas about `splitDot` and `joinDot` -/

theorem splitDot_ne_nil (cs : List Char) : splitDot cs ≠ [] := by
  induction cs with
  | nil => simp [splitDot]
  | cons c cs ih =>
    simp only [splitDot]
    split
    · simp
    · split
      · simp
      · simp

theorem splitDot_no_dot (s : List Char) (h : ('.' : Char) ∉ s) : splitDot s = [s] := by
  induction s with
  | nil => rfl
  | cons c cs ih =>
    have hc : c ≠ '.' := fun hcd => h (hcd ▸ List.mem_cons_self c cs)
    have hcs : ('.' : Char) ∉ cs := fun hm => h (List.mem_cons_of_mem c hm)
    simp only [splitDot, if_neg hc, ih hcs]

theorem splitDot_append (s rest : List Char) (h : ('.' : Char) ∉ s) :
    splitDot (s ++ '.' :: rest) = s :: splitDot rest := by
  induction s with
  | nil => simp [splitDot]
  | cons c cs ih =>
    have hc : c ≠ '.' := fun hcd => h (hcd ▸ List.mem_cons_self c cs)
    have hcs : ('.' : Char) ∉ cs := fun hm => h (List.mem_cons_of_mem c hm)
    simp only [List.cons_append, splitDot, if_neg hc, List.append_eq, ih hcs]

theorem splitDot_joinDot (ss : List (List Char)) (hne : ss ≠ [])
    (hdot : ∀ s ∈ ss, ('.' : Char) ∉ s) : splitDot (joinDot ss) = ss := by
  induction ss with
  | nil => cases hne rfl
  | cons s ss ih =>
    cases ss with
    | nil => exact splitDot_no_dot s (hdot s (List.mem_cons_self s []))
    | cons s' ss' =>
      have h1 : ('.' : Char) ∉ s := hdot s (List.mem_cons_self s (s' :: ss'))
      have h2 := ih (by simp) (fun t ht => hdot t (List.mem_cons_of_mem s ht))
      simp only [joinDot]
      rw [splitDot_append s _ h1, h2]

/-! ## Lemmas about `resolveLoop` -/

theorem resolveLoop_pathLookup (ss : List (List Char)) :
    ∀ (target v : Value), pathLookup target ss = some v →
    resolveLoop target [] ss = .ok (some v) := by
  induction ss with
  | nil =>
    intro target v hfound
    simp only [pathLookup, Option.some.injEq] at hfound
    subst hfound
    rfl
  | cons s ss ih =>
    intro target v hfound
    cases target with
    | vnull => simp [pathLookup] at hfound
    | vbool b => simp [pathLookup] at hfound
    | vnum n => simp [pathLookup] at hfound
    | vstr cs => simp [pathLookup] at hfound
    | vobj fields =>
      cases hl : assocLookup fields s with
      | none => simp [pathLookup, hl] at hfound
      | some u =>
        simp only [pathLookup, hl] at hfound
        cases ss with
        | nil =>
          simp only [pathLookup, Option.some.injEq] at hfound
          subst hfound
          simp [resolveLoop, jsGetProp, hl]
        | cons s' ss' =>
          cases u with
          | vnull => simp [pathLookup] at hfound
          | vbool b => simp [pathLookup] at hfound
          | vnum n => simp [pathLookup] at hfound
          | vstr cs => simp [pathLookup] at hfound
          | vobj ufields =>
            have hstep : resolveLoop (Value.vobj fields) [] (s :: s' :: ss')
                = resolveLoop (Value.vobj ufields) [] (s' :: ss') := by
              simp [resolveLoop, jsGetProp, hl, typeofObject]
            rw [hstep]
            exact ih _ v hfound

theorem nullFreeFields_lookup (fields : List (List Char × Value)) (k : List Char)
    (v : Value) (hf : nullFreeFields fields = true) (hl : assocLookup fields k = some v) :
    nullFree v = true := by
  induction fields with
  | nil => cases hl
  | cons p rest ih =>
    obtain ⟨pk, pv⟩ := p
    simp only [nullFreeFields, Bool.and_eq_true] at hf
    by_cases hk : pk = k
    · simp only [assocLookup, if_pos hk, Option.some.injEq] at hl
      subst hl
      exact hf.1
    · simp only [assocLookup, if_neg hk] at hl
      exact ih hf.2 hl

theorem resolveLoop_total (keys : List (List Char)) :
    ∀ (target : Value) (key : List Char), nullFree target = true →
    ∃ o, resolveLoop target key keys = .ok o := by
  induction keys with
  | nil => exact fun target key _ => ⟨some target, rfl⟩
  | cons k keys ih =>
    intro target key h
    cases target with
    | vnull => simp [nullFree] at h
    | vbool b =>
      cases keys with
      | nil => exact ⟨none, by simp [resolveLoop, jsGetProp]⟩
      | cons k' keys' =>
        obtain ⟨o, ho⟩ := ih (Value.vbool b) (key ++ k ++ ['.']) h
        exact ⟨o, by simp only [resolveLoop, jsGetProp]; exact ho⟩
    | vnum n =>
      cases keys with
      | nil => exact ⟨none, by simp [resolveLoop, jsGetProp]⟩
      | cons k' keys' =>
        obtain ⟨o, ho⟩ := ih (Value.vnum n) (key ++ k ++ ['.']) h
        exact ⟨o, by simp only [resolveLoop, jsGetProp]; exact ho⟩
    | vstr cs =>
      cases keys with
      | nil => exact ⟨none, by simp [resolveLoop, jsGetProp]⟩
      | cons k' keys' =>
        obtain ⟨o, ho⟩ := ih (Value.vstr cs) (key ++ k ++ ['.']) h
        exact ⟨o, by simp only [resolveLoop, jsGetProp]; exact ho⟩
    | vobj fields =>
      cases hl : assocLookup fields (key ++ k) with
      | none =>
        cases keys with
        | nil => exact ⟨none, by simp [resolveLoop, jsGetProp, hl]⟩
        | cons k' keys' =>
          obtain ⟨o, ho⟩ := ih (Value.vobj fields) (key ++ k ++ ['.']) h
          exact ⟨o, by simp only [resolveLoop, jsGetProp, hl]; exact ho⟩
      | some value =>
        have hv : nullFree value = true :=
          nullFreeFields_lookup fields (key ++ k) value (by simpa [nullFree] using h) hl
        cases keys with
        | nil => exact ⟨some value, by simp [resolveLoop, jsGetProp, hl]⟩
        | cons k' keys' =>
          by_cases ht : typeofObject value = true
          · obtain ⟨o, ho⟩ := ih value [] hv
            exact ⟨o, by simp only [resolveLoop, jsGetProp, hl, ht, List.isEmpty_cons,
              Bool.or_false, if_true]; exact ho⟩
          · obtain ⟨o, ho⟩ := ih (Value.vobj fields) (key ++ k ++ ['.']) h
            have ht' : typeofObject value = false := by
              cases htv : typeofObject value
              · rfl
              · exact absurd htv ht
            exact ⟨o, by simp only [resolveLoop, jsGetProp, hl, ht', List.isEmpty_cons,
              Bool.or_false, if_false, Bool.false_eq_true]; exact ho⟩

end Adf

namespace Adf

/-- C1: for every record and every dotted path whose every segment is present
in the record (each intermediate value an object, the final segment mapped to
a leaf), `getObjectValue` returns exactly the leaf value stored at that path. -/
theorem getObjectValue_valid_path (fields : List (List Char × Value))
    (ss : List (List Char)) (v : Value) (hne : ss ≠ [])
    (hdot : ∀ s ∈ ss, ('.' : Char) ∉ s)
    (hfound : pathLookup (.vobj fields) ss = some v)
    (_hleaf : typeofObject v = false) :
    getObjectValue (.vobj fields) (joinDot ss) = .ok (some v) := by
  unfold getObjectValue
  rw [splitDot_joinDot ss hne hdot]
  exact resolveLoop_pathLookup ss _ v hfound

/-- Witness for C1 at the record `{a: {b: 'x'}}` and the path `'a.b'`. -/
theorem getObjectValue_valid_path_witness :
    pathLookup (.vobj [(['a'], .vobj [(['b'], .vstr ['x'])])]) [['a'], ['b']]
        = some (.vstr ['x']) ∧
    getObjectValue (.vobj [(['a'], .vobj [(['b'], .vstr ['x'])])])
        (joinDot [['a'], ['b']]) = .ok (some (.vstr ['x'])) :=
  ⟨rfl, getObjectValue_valid_path _ _ _ (by decide) (by decide) rfl rfl⟩

/-- C2 counterexample: on the record `{a: null}` and the path `'a.b'` the
resolver throws a `TypeError` (`typeof null === 'object'` lets the loop
descend into `null`, and the next iteration reads a property of `null`), so
`getObjectValue` does not always yield the absence marker instead of an
error. -/
theorem getObjectValue_null_raises :
    getObjectValue (.vobj [(['a'], Value.vnull)]) ['a', '.', 'b'] = .error () := rfl

/-- C2 amended: for every record containing no `null` value and every path,
`getObjectValue` never raises — it returns a result (the stored value or the
absence marker), never a `TypeError`. -/
theorem getObjectValue_never_raises (target : Value) (key : List Char)
    (h : nullFree target = true) :
    ∃ o, getObjectValue target key = .ok o :=
  resolveLoop_total (splitDot key) target [] h

/-- Witness for amended C2 at the record `{a: {b: 1}}` and the path `'a.x.y'`. -/
theorem getObjectValue_never_raises_witness :
    nullFree (.vobj [(['a'], .vobj [(['b'], .vnum 1)])]) = true ∧
    ∃ o, getObjectValue (.vobj [(['a'], .vobj [(['b'], .vnum 1)])])
        ['a', '.', 'x', '.', 'y'] = .ok o :=
  ⟨rfl, getObjectValue_never_raises _ _ rfl⟩

/-- C3 counterexample: on the record `{a: 1}` the empty path does not return
the record itself — the loop still runs once on the single empty segment,
looks up the empty-string key, finds nothing and returns `undefined`. -/
theorem getObjectValue_empty_path_counterexample :
    getObjectValue (.vobj [(['a'], .vnum 1)]) []
      ≠ .ok (some (.vobj [(['a'], .vnum 1)])) := by
  intro h
  exact Option.noConfusion (Except.ok.inj h)

/-- C3 amended: for every record, resolving the empty path returns the value
stored under the literal empty-string key when one is present and the absence
marker otherwise — never the original record (unless stored there). -/
theorem getObjectValue_empty_path (fields : List (List Char × Value)) :
    getObjectValue (.vobj fields) [] = .ok (assocLookup fields []) := by
  cases h : assocLookup fields [] <;>
    simp [getObjectValue, splitDot, resolveLoop, jsGetProp, h]

/-- C10: when the first segment is not a key of the record, `getObjectValue`
rejoins the consumed segments with `'.'` and retries them as one literal
compound key: a record lacking key `'a'` but storing a value under the
literal key `'a.b'` resolves path `'a.b'` to that stored value. -/
theorem getObjectValue_compound_key (fields : List (List Char × Value)) (v : Value)
    (h1 : assocLookup fields ['a'] = none)
    (h2 : assocLookup fields ['a', '.', 'b'] = some v) :
    getObjectValue (.vobj fields) ['a', '.', 'b'] = .ok (some v) := by
  have hs : splitDot ['a', '.', 'b'] = [['a'], ['b']] := rfl
  unfold getObjectValue
  rw [hs]
  simp [resolveLoop, jsGetProp, h1, h2]

/-- Witness for C10 at the record `{'a.b': 9}` and the path `'a.b'`. -/
theorem getObjectValue_compound_key_witness :
    assocLookup [(['a', '.', 'b'], Value.vnum 9)] ['a'] = none ∧
    getObjectValue (.vobj [(['a', '.', 'b'], Value.vnum 9)]) ['a', '.', 'b']
      = .ok (some (.vnum 9)) :=
  ⟨rfl, getObjectValue_compound_key _ (.vnum 9) rfl rfl⟩

end Adf

namespace Adf

/-- C9: `getNodePath` computes its non-null result exclusively from the
ambient `item` identifier — which is not bound in the function's scope — and
never from its `node` parameter: the result is the same for any two non-null
nodes, and equals a composition of `item`'s own fields. -/
theorem getNodePath_reads_unbound_item (item n₁ n₂ : MinimalNodeEntity) :
    getNodePath item (some n₁) = getNodePath item (some n₂) ∧
    getNodePath item (some n₁)
      = some (replaceFirst companyHome [] item.entry.path.name
          ++ '/' :: item.entry.name) :=
  ⟨rfl, rfl⟩

/-- C8: `getDeployedApplicationsByStatus` keeps exactly the applications
whose `status` equals the given status, wraps each as
`ApplicationInstanceModel`, and preserves the API's order (the result is an
order-preserving sub-sequence of the wrapped input). -/
theorem getDeployedApplicationsByStatus_filters (status : List Char)
    (apps : List AppRecord) :
    (∀ m ∈ getDeployedApplicationsByStatus status apps, m.status = status) ∧
    List.Sublist (getDeployedApplicationsByStatus status apps)
      (apps.map mkApplicationInstanceModel) ∧
    (∀ a ∈ apps, a.status = status →
      mkApplicationInstanceModel a ∈ getDeployedApplicationsByStatus status apps) := by
  refine ⟨?_, ?_, ?_⟩
  · intro m hm
    unfold getDeployedApplicationsByStatus at hm
    rcases List.mem_map.mp hm with ⟨a, ha, rfl⟩
    have := List.of_mem_filter ha
    simpa [mkApplicationInstanceModel] using this
  · exact List.Sublist.map mkApplicationInstanceModel (List.filter_sublist apps)
  · intro a ha hst
    unfold getDeployedApplicationsByStatus
    exact List.mem_map_of_mem mkApplicationInstanceModel
      (List.mem_filter.mpr ⟨ha, by simpa using hst⟩)

/-- Witness for C8: with the API returning a `RUNNING` and a `SUSPENDED`
application, the `RUNNING` one is kept (wrapped). -/
theorem getDeployedApplicationsByStatus_filters_witness :
    mkApplicationInstanceModel ⟨['a', '1'], vRunning⟩
      ∈ getDeployedApplicationsByStatus vRunning
          [⟨['a', '1'], vRunning⟩, ⟨['a', '2'], ['S', 'U', 'S', 'P']⟩] :=
  (getDeployedApplicationsByStatus_filters vRunning _).2.2 _ (by simp) rfl

end Adf

namespace Adf

/-! ## Lemmas about `buildFromEntries` and `build` -/

theorem buildFromEntries_keys (record : Value)
    (entries : List (List Char × PropertyTemplate))
    (lookup : List Char → Except Unit (List Value)) :
    ((buildFromEntries record entries lookup).1).map PropertyDescriptor.key
      = entries.map Prod.fst := by
  unfold buildFromEntries
  simp only [List.map_map]
  exact List.map_congr_left (fun e _ => rfl)

theorem buildFromEntries_length (record : Value)
    (entries : List (List Char × PropertyTemplate))
    (lookup : List Char → Except Unit (List Value)) :
    ((buildFromEntries record entries lookup).1).length = entries.length := by
  simp [buildFromEntries]

theorem filterMap_assoc_keys (catalog : List (List Char × PropertyTemplate))
    (requested : List (List Char)) :
    (requested.filterMap
        (fun k => (assocLookup catalog k).map (fun t => (k, t)))).map Prod.fst
      = requested.filter (fun k => (assocLookup catalog k).isSome) := by
  induction requested with
  | nil => rfl
  | cons r rest ih =>
    cases hl : assocLookup catalog r with
    | none => simp [List.filterMap_cons, List.filter_cons, hl, ih]
    | some t => simp [List.filterMap_cons, List.filter_cons, hl, ih]

theorem filterMap_assoc_length_lt (catalog : List (List Char × PropertyTemplate))
    (requested : List (List Char))
    (h : ∃ k ∈ requested, assocLookup catalog k = none) :
    (requested.filterMap
        (fun k => (assocLookup catalog k).map (fun t => (k, t)))).length
      < requested.length := by
  induction requested with
  | nil => rcases h with ⟨k, hk, _⟩; cases hk
  | cons r rest ih =>
    rcases h with ⟨k, hk, hnone⟩
    rcases List.mem_cons.mp hk with heq | hmem
    · subst heq
      rw [List.filterMap_cons_none (by simp [hnone])]
      exact Nat.lt_succ_of_le (List.length_filterMap_le _ _)
    · cases hl : assocLookup catalog r with
      | none =>
        rw [List.filterMap_cons_none (by simp [hl])]
        exact Nat.lt_succ_of_le (List.length_filterMap_le _ _)
      | some t =>
        simp only [List.filterMap_cons, hl, Option.map_some', List.length_cons]
        exact Nat.succ_lt_succ (ih ⟨k, hmem, hnone⟩)

/-- C4: `build` with an empty requested list produces exactly the 3 built-in
default properties `state`, `sort`, `order` in fixed order, for every record
and catalog; and with the baseline defaults, on an empty record the FormState
is `{state: 'RUNNING', sort: 'id', order: 'ASC'}`. -/
theorem build_empty_requested (record : Value)
    (catalog : List (List Char × PropertyTemplate))
    (lookup : List Char → Except Unit (List Value)) :
    ((build record [] catalog lookup).1).map PropertyDescriptor.key
        = [kState, kSort, kOrder] ∧
    (build (.vobj []) [] catalog lookup).2
        = [(kState, .vstr vRunning), (kSort, .vstr vId), (kOrder, .vstr vAsc)] :=
  ⟨rfl, rfl⟩

/-- C5: `build` is deterministic in its inputs — two calls with identical
record, requested list and catalog, and lookup sources returning the same
data on every key, produce an identical descriptor list and FormState. -/
theorem build_deterministic (record : Value) (requested : List (List Char))
    (catalog : List (List Char × PropertyTemplate))
    (l₁ l₂ : List Char → Except Unit (List Value)) (h : ∀ k, l₁ k = l₂ k) :
    build record requested catalog l₁ = build record requested catalog l₂ := by
  have hb : ∀ entries : List (List Char × PropertyTemplate),
      buildFromEntries record entries l₁ = buildFromEntries record entries l₂ := by
    intro entries
    have hmap : entries.map (fun e => buildEntry record l₁ e.1 e.2)
        = entries.map (fun e => buildEntry record l₂ e.1 e.2) :=
      List.map_congr_left (fun e _ => by simp [buildEntry, h e.1])
    unfold buildFromEntries
    rw [hmap]
  unfold build
  split
  · exact hb _
  · exact hb _

/-- Witness for C5 at concrete inputs with two definitionally different
lookup sources returning the same data. -/
theorem build_deterministic_witness :
    build (.vobj []) [kState] defaultEntries (fun _ => .ok [])
      = build (.vobj []) [kState] defaultEntries (fun _ => .ok (List.nil ++ [])) :=
  build_deterministic _ _ _ _ _ (fun _ => rfl)

/-- C6: a requested list containing a key absent from the catalog yields a
descriptor list holding precisely the requested keys found in the catalog,
in requested order, and strictly shorter than the requested list. -/
theorem build_skips_unknown_keys (record : Value) (requested : List (List Char))
    (catalog : List (List Char × PropertyTemplate))
    (lookup : List Char → Except Unit (List Value))
    (h : ∃ k ∈ requested, assocLookup catalog k = none) :
    ((build record requested catalog lookup).1).map PropertyDescriptor.key
        = requested.filter (fun k => (assocLookup catalog k).isSome) ∧
    ((build record requested catalog lookup).1).length < requested.length := by
  have hne : requested ≠ [] := by
    rcases h with ⟨k, hk, _⟩
    intro he
    subst he
    cases hk
  have hbuild : build record requested catalog lookup
      = buildFromEntries record
          (requested.filterMap (fun k => (assocLookup catalog k).map (fun t => (k, t))))
          lookup := by
    unfold build
    rw [if_neg hne]
  constructor
  · rw [hbuild, buildFromEntries_keys, filterMap_assoc_keys]
  · rw [hbuild, buildFromEntries_length]
    exact filterMap_assoc_length_lt catalog requested h

/-- Witness for C6: requesting `state` and an unknown key `z` against the
default catalog yields 1 descriptor, strictly fewer than the 2 requested. -/
theorem build_skips_unknown_keys_witness :
    assocLookup defaultEntries ['z'] = none ∧
    ((build (.vobj []) [kState, ['z']] defaultEntries (fun _ => .ok [])).1).length < 2 :=
  ⟨rfl, (build_skips_unknown_keys (.vobj []) [kState, ['z']] defaultEntries
    (fun _ => .ok []) ⟨['z'], by decide, rfl⟩).2⟩

/-- C7: a dependent lookup failing on one key does not abort the build — the
FormState is exactly the one a non-failing lookup source (agreeing on every
other key) would produce, the descriptor lists correspond pairwise with every
descriptor of another key unchanged, and the failing key's descriptor
degrades to the empty domain; no error is propagated (the result is a plain
pair). -/
theorem build_lookup_failure_isolated (record : Value) (requested : List (List Char))
    (catalog : List (List Char × PropertyTemplate))
    (l l' : List Char → Except Unit (List Value)) (k₀ : List Char)
    (hfail : l k₀ = .error ())
    (hagree : ∀ k, k ≠ k₀ → l k = l' k) :
    (build record requested catalog l).2 = (build record requested catalog l').2 ∧
    List.Forall₂ (fun d d' : PropertyDescriptor =>
        (d.key ≠ k₀ → d = d') ∧ (d.key = k₀ → d.domain = []))
      (build record requested catalog l).1 (build record requested catalog l').1 := by
  have hsnd : ∀ entries : List (List Char × PropertyTemplate),
      (buildFromEntries record entries l).2 = (buildFromEntries record entries l').2 := by
    intro entries
    unfold buildFromEntries
    simp only [List.map_map]
    exact List.map_congr_left (fun e _ => rfl)
  have hrel : ∀ (k : List Char) (t : PropertyTemplate),
      ((buildEntry record l k t).1.key ≠ k₀ →
        (buildEntry record l k t).1 = (buildEntry record l' k t).1) ∧
      ((buildEntry record l k t).1.key = k₀ →
        (buildEntry record l k t).1.domain = []) := by
    intro k t
    constructor
    · intro hk
      have hlk : l k = l' k := hagree k hk
      simp [buildEntry, hlk]
    · intro hk
      have hk' : k = k₀ := hk
      subst hk'
      cases hd : t.dependent <;> simp [buildEntry, hd, hfail]
  have hfst : ∀ entries : List (List Char × PropertyTemplate),
      List.Forall₂ (fun d d' : PropertyDescriptor =>
        (d.key ≠ k₀ → d = d') ∧ (d.key = k₀ → d.domain = []))
        (buildFromEntries record entries l).1 (buildFromEntries record entries l').1 := by
    intro entries
    unfold buildFromEntries
    induction entries with
    | nil => exact List.Forall₂.nil
    | cons e rest ih =>
      simp only [List.map_cons]
      exact List.Forall₂.cons (hrel e.1 e.2) ih
  unfold build
  split
  · exact ⟨hsnd _, hfst _⟩
  · exact ⟨hsnd _, hfst _⟩

/-- Witness for C7: a lookup failing on `state` produces the same FormState
as one returning an empty list everywhere. -/
theorem build_lookup_failure_isolated_witness :
    (fun k => if k = kState then (Except.error () : Except Unit (List Value))
        else .ok []) kState = .error () ∧
    (build (.vobj []) [kState] defaultEntries
        (fun k => if k = kState then .error () else .ok [])).2
      = (build (.vobj []) [kState] defaultEntries (fun _ => .ok [])).2 :=
  ⟨rfl, (build_lookup_failure_isolated _ _ _ _ _ kState rfl
    (fun k hk => by simp [hk])).1⟩

end Adf
